import Mathlib

/-!
Verification of the ChaosMaker corruption-descriptor model, query encoder,
configuration store and redirect resolver, as implemented in
`src/server/services/configStore.ts` and `src/server/routes/redirect.ts`.

The JavaScript `Map` is modelled as an insertion-ordered association list;
optional descriptor fields (`i?`, `sq?`, ...) are modelled with `Option`;
the segment-index field `i?: number | '*'` is a sum of a number and the
wildcard token.  Numbers in descriptors are modelled as `Nat` (the data
model uses non-negative integers).  JavaScript string truthiness (empty
string is falsy) is modelled explicitly where the code relies on it.
-/

namespace ChaosMaker

/-- `'hls' | 'dash'` protocol token. -/
inductive Protocol where
  | hls
  | dash
deriving DecidableEq, Repr

/-- String form as interpolated by the TypeScript code. -/
def Protocol.toStr : Protocol → String
  | .hls => "hls"
  | .dash => "dash"

/-- `'live' | 'vod'` stream type token. -/
inductive StreamType where
  | live
  | vod
deriving DecidableEq, Repr

/-- The segment-index field `i?: number | '*'`. -/
inductive IndexVal where
  | num (n : Nat)
  | star
deriving DecidableEq, Repr

/-- A delay corruption descriptor (element of `ChaosProxyConfig.delays`). -/
structure Delay where
  i : Option IndexVal := none
  sq : Option Nat := none
  rsq : Option Nat := none
  br : Option Nat := none
  l : Option Nat := none
  ms : Option Nat := none
deriving DecidableEq, Repr

/-- A status-code corruption descriptor (element of `statusCodes`). -/
structure StatusCode where
  i : Option IndexVal := none
  sq : Option Nat := none
  rsq : Option Nat := none
  br : Option Nat := none
  code : Option Nat := none
deriving DecidableEq, Repr

/-- A timeout corruption descriptor (element of `timeouts`). -/
structure Timeout where
  i : Option IndexVal := none
  sq : Option Nat := none
  rsq : Option Nat := none
  br : Option Nat := none
deriving DecidableEq, Repr

/-- A throttle corruption descriptor (element of `throttles`). -/
structure Throttle where
  i : Option IndexVal := none
  sq : Option Nat := none
  rsq : Option Nat := none
  br : Option Nat := none
  rate : Option Nat := none
deriving DecidableEq, Repr

/-- The stored configuration record (`ChaosProxyConfig` in the source). -/
structure ChaosProxyConfig where
  name : String
  instanceUrl : String
  sourceUrl : String
  protocol : Protocol
  streamType : Option StreamType := none
  description : Option String := none
  delays : List Delay := []
  statusCodes : List StatusCode := []
  timeouts : List Timeout := []
  throttles : List Throttle := []
deriving DecidableEq, Repr

/-! ### The unquoted-JSON value and encoder (`ConfigStore.toUnquotedJson`) -/

/-- The JSON-like values handled by `toUnquotedJson`. -/
inductive JVal where
  | num (n : Nat)
  | str (s : String)
  | bool (b : Bool)
  | arr (xs : List JVal)
  | obj (fields : List (String × JVal))
deriving Repr

/-- `Array.prototype.join(sep)` on a list of strings. -/
def joinSep (sep : String) : List String → String
  | [] => ""
  | [x] => x
  | x :: y :: xs => x ++ sep ++ joinSep sep (y :: xs)

mutual
/--
`ConfigStore.toUnquotedJson`: serialize a value with unquoted object keys,
the bare wildcard token `*` for the string `"*"`, quotes around other
strings, and bare numerals/booleans.  Fields that are `undefined` in the
source never make it into an `obj`'s field list in this model, mirroring
the source's `filter(([_, value]) => value !== undefined)`.
-/
def toUnquotedJson : JVal → String
  | .arr xs => "[" ++ joinSep "," (jvalList xs) ++ "]"
  | .obj fields => "\x7b" ++ joinSep "," (fieldList fields) ++ "\x7d"
  | .num n => toString n
  | .str s => "\x22" ++ s ++ "\x22"
  | .bool b => if b then "true" else "false"

/-- Serialize each element of an array. -/
def jvalList : List JVal → List String
  | [] => []
  | x :: xs => toUnquotedJson x :: jvalList xs

/-- Serialize each `key:value` entry of an object. -/
def fieldList : List (String × JVal) → List String
  | [] => []
  | (key, value) :: rest =>
    (match value with
     | .num n => key ++ ":" ++ toString n
     | .str s => if s = "*" then key ++ ":*" else key ++ ":\x22" ++ s ++ "\x22"
     | .bool b => key ++ ":" ++ (if b then "true" else "false")
     | v => key ++ ":" ++ toUnquotedJson v) :: fieldList rest
end

/-- The `i` field as placed into the plain object built in `generateProxyUrl`. -/
def IndexVal.toJVal : IndexVal → JVal
  | .num n => .num n
  | .star => .str "*"

/-- The field list of the plain object built from a delay descriptor in
`generateProxyUrl` (fields assigned in source order `i, sq, rsq, br, l,
ms`, skipping `undefined`). -/
def Delay.objFields (d : Delay) : List (String × JVal) :=
  List.filterMap id
    [d.i.map (fun v => ("i", v.toJVal)),
     d.sq.map (fun n => ("sq", JVal.num n)),
     d.rsq.map (fun n => ("rsq", JVal.num n)),
     d.br.map (fun n => ("br", JVal.num n)),
     d.l.map (fun n => ("l", JVal.num n)),
     d.ms.map (fun n => ("ms", JVal.num n))]

/-- The plain object built from a delay descriptor in `generateProxyUrl`. -/
def Delay.toJVal (d : Delay) : JVal :=
  .obj d.objFields

/-- The field list of the plain object built from a status-code
descriptor in `generateProxyUrl` (source order `i, sq, rsq, br, code`). -/
def StatusCode.objFields (s : StatusCode) : List (String × JVal) :=
  List.filterMap id
    [s.i.map (fun v => ("i", v.toJVal)),
     s.sq.map (fun n => ("sq", JVal.num n)),
     s.rsq.map (fun n => ("rsq", JVal.num n)),
     s.br.map (fun n => ("br", JVal.num n)),
     s.code.map (fun n => ("code", JVal.num n))]

/-- The plain object built from a status-code descriptor in
`generateProxyUrl`. -/
def StatusCode.toJVal (s : StatusCode) : JVal :=
  .obj s.objFields

/-- The field list of the plain object built from a timeout descriptor in
`generateProxyUrl` (source order `i, sq, rsq, br`). -/
def Timeout.objFields (t : Timeout) : List (String × JVal) :=
  List.filterMap id
    [t.i.map (fun v => ("i", v.toJVal)),
     t.sq.map (fun n => ("sq", JVal.num n)),
     t.rsq.map (fun n => ("rsq", JVal.num n)),
     t.br.map (fun n => ("br", JVal.num n))]

/-- The plain object built from a timeout descriptor in
`generateProxyUrl`. -/
def Timeout.toJVal (t : Timeout) : JVal :=
  .obj t.objFields

/-- The field list of the plain object built from a throttle descriptor
in `generateProxyUrl` (source order `i, sq, rsq, br, rate`). -/
def Throttle.objFields (t : Throttle) : List (String × JVal) :=
  List.filterMap id
    [t.i.map (fun v => ("i", v.toJVal)),
     t.sq.map (fun n => ("sq", JVal.num n)),
     t.rsq.map (fun n => ("rsq", JVal.num n)),
     t.br.map (fun n => ("br", JVal.num n)),
     t.rate.map (fun n => ("rate", JVal.num n))]

/-- The plain object built from a throttle descriptor in
`generateProxyUrl`. -/
def Throttle.toJVal (t : Throttle) : JVal :=
  .obj t.objFields

/-- `ConfigStore.generateProxyUrl` applied directly to a configuration
record (the source looks the record up first; see `generateProxyUrl`
below for the store-level operation). Returns `none` when the record has
no usable source URL (`!config.sourceUrl`). -/
def generateProxyUrlOfConfig (config : ChaosProxyConfig) : Option String :=
  if config.sourceUrl = "" then
    none
  else
    let endpoint := match config.protocol with
      | .hls => "/api/v2/manifests/hls/proxy-master.m3u8"
      | .dash => "/api/v2/manifests/dash/proxy-master.mpd"
    let queryParts : List String :=
      ["url=" ++ config.sourceUrl]
      ++ (if config.delays.length > 0 then
            ["delay=" ++ toUnquotedJson (.arr (config.delays.map Delay.toJVal))]
          else [])
      ++ (if config.statusCodes.length > 0 then
            ["statusCode=" ++ toUnquotedJson (.arr (config.statusCodes.map StatusCode.toJVal))]
          else [])
      ++ (if config.timeouts.length > 0 then
            ["timeout=" ++ toUnquotedJson (.arr (config.timeouts.map Timeout.toJVal))]
          else [])
      ++ (if config.throttles.length > 0 then
            ["throttle=" ++ toUnquotedJson (.arr (config.throttles.map Throttle.toJVal))]
          else [])
    some (config.instanceUrl ++ endpoint ++ "?" ++ joinSep "&" queryParts)

/-! ### The configuration store (`ConfigStore`)

The JavaScript `Map<string, ChaosProxyConfig>` is modelled as an
association list in insertion order: `Map.set` on a fresh key appends,
`Map.set` on a present key updates in place, `Map.delete` removes,
`Map.get`/`Map.has` search by key, and `Map.values()` is the list of
values in insertion order. -/

/-- The store's backing map, in insertion order. -/
abbrev Store := List (String × ChaosProxyConfig)

/-- `Map.prototype.has`. -/
def mapHas (m : Store) (k : String) : Bool :=
  m.any (fun p => p.1 = k)

/-- `Map.prototype.get` (`|| null` modelled by `Option`). -/
def mapGet (m : Store) (k : String) : Option ChaosProxyConfig :=
  (m.find? (fun p => p.1 = k)).map (fun p => p.2)

/-- `Map.prototype.set`: update in place when the key is present,
append otherwise. -/
def mapSet (m : Store) (k : String) (v : ChaosProxyConfig) : Store :=
  if mapHas m k then
    m.map (fun p => if p.1 = k then (k, v) else p)
  else
    m ++ [(k, v)]

/-- `Map.prototype.delete` (the resulting map). -/
def mapDelete (m : Store) (k : String) : Store :=
  m.filter (fun p => p.1 ≠ k)

/-- `ConfigStore.getKey`: the composite key `` `${name}:${protocol}` ``. -/
def getKey (name : String) (protocol : Protocol) : String :=
  name ++ ":" ++ protocol.toStr

/-- `ConfigStore.saveConfig`: delete the key first if present so that the
record is re-appended at the end of insertion order, then set. -/
def saveConfig (m : Store) (config : ChaosProxyConfig) : Store :=
  let key := getKey config.name config.protocol
  let m' := if mapHas m key then mapDelete m key else m
  mapSet m' key config

/-- `ConfigStore.getConfig`. -/
def getConfig (m : Store) (name : String) (protocol : Protocol) :
    Option ChaosProxyConfig :=
  mapGet m (getKey name protocol)

/-- `ConfigStore.listConfigs`: values in reverse insertion order
(newest first). -/
def listConfigs (m : Store) : List ChaosProxyConfig :=
  (m.map (fun p => p.2)).reverse

/-- `ConfigStore.deleteConfig`: whether the key was present, and the
resulting store. -/
def deleteConfig (m : Store) (name : String) (protocol : Protocol) :
    Bool × Store :=
  let key := getKey name protocol
  (mapHas m key, mapDelete m key)

/-- `ConfigStore.hasConfig`. -/
def hasConfig (m : Store) (name : String) (protocol : Protocol) : Bool :=
  mapHas m (getKey name protocol)

/-- `ConfigStore.saveToFile`: the sequence of records written to the
durable file — `Array.from(this.configs.values())` reversed (newest
first). -/
def fileContents (m : Store) : List ChaosProxyConfig :=
  (m.map (fun p => p.2)).reverse

/-- `ConfigStore.loadFromFile`: rebuild the map by `Map.set`-ing each
record of the file, in file order, into an empty map. -/
def loadFromFile (configs : List ChaosProxyConfig) : Store :=
  configs.foldl
    (fun m config => mapSet m (getKey config.name config.protocol) config) []

/-- `ConfigStore.generateProxyUrl`: look the record up, then encode. -/
def generateProxyUrl (m : Store) (name : String) (protocol : Protocol) :
    Option String :=
  match getConfig m name protocol with
  | none => none
  | some config => generateProxyUrlOfConfig config

/-! ### The HTTP route handlers (`src/server/routes/redirect.ts`) -/

/-- Outcome of `POST /api/config` (`router.post('/')`). -/
inductive PostResult where
  | invalidRequest
  | invalidName
  | saved (message : String)
deriving DecidableEq, Repr

/-- HTTP status attached to each `POST` outcome in the source. -/
def PostResult.status : PostResult → Nat
  | .invalidRequest => 400
  | .invalidName => 400
  | .saved _ => 200

/-- The request body of `POST /api/config`; absent JSON fields are
`none`. -/
structure PostBody where
  name : Option String := none
  instanceUrl : Option String := none
  sourceUrl : Option String := none
  protocol : Option Protocol := none
  streamType : Option StreamType := none
  description : Option String := none
  delays : Option (List Delay) := none
  statusCodes : Option (List StatusCode) := none
  timeouts : Option (List Timeout) := none
  throttles : Option (List Throttle) := none

/-- JavaScript truthiness of an optional string (`!name`): absent and
empty strings are falsy. -/
def truthyStr : Option String → Bool
  | none => false
  | some s => !(s = "")

/-- The character class of the name-validation regexp
`/^[a-zA-Z0-9_-]+$/`. -/
def isNameChar (c : Char) : Bool :=
  (c.val ≥ 97 && c.val ≤ 122) || (c.val ≥ 65 && c.val ≤ 90) ||
  (c.val ≥ 48 && c.val ≤ 57) || c = '_' || c = '-'

/-- `/^[a-zA-Z0-9_-]+$/.test(name)`. -/
def testNameRegex (name : String) : Bool :=
  !(name = "") && name.data.all isNameChar

/-- `router.post('/')`: validate, then save.  Returns the response and
the store after the request. -/
def handlePost (m : Store) (body : PostBody) : PostResult × Store :=
  if !truthyStr body.name || !truthyStr body.instanceUrl ||
     !truthyStr body.sourceUrl || body.protocol.isNone then
    (.invalidRequest, m)
  else
    match body.name, body.instanceUrl, body.sourceUrl, body.protocol with
    | some name, some instanceUrl, some sourceUrl, some protocol =>
      if !testNameRegex name then
        (.invalidName, m)
      else
        let config : ChaosProxyConfig :=
          { name := name
            instanceUrl := instanceUrl
            sourceUrl := sourceUrl
            protocol := protocol
            streamType := some (body.streamType.getD .live)
            description := body.description
            delays := body.delays.getD []
            statusCodes := body.statusCodes.getD []
            timeouts := body.timeouts.getD []
            throttles := body.throttles.getD [] }
        (.saved ("Configuration '" ++ name ++ "' (" ++ protocol.toStr ++ ") saved"),
         saveConfig m config)
    | _, _, _, _ => (.invalidRequest, m)

/-- Outcome of `GET /redirect/:filename` (`router.get('/:filename')`). -/
inductive RedirectResult where
  | badRequest (message : String)
  | notFound (message : String)
  | generationFailure (message : String)
  | redirect (status : Nat) (location : String)
deriving DecidableEq, Repr

/-- HTTP status of each redirect outcome in the source. -/
def RedirectResult.status : RedirectResult → Nat
  | .badRequest _ => 400
  | .notFound _ => 404
  | .generationFailure _ => 500
  | .redirect s _ => s

/-- `protocol.toUpperCase()` as used in the not-found message. -/
def Protocol.toUpper : Protocol → String
  | .hls => "HLS"
  | .dash => "DASH"

/-- The lookup-and-redirect tail of `router.get('/:filename')`, after
name and protocol have been derived from the extension. -/
def resolveRedirect (m : Store) (name : String) (protocol : Protocol) :
    RedirectResult :=
  match getConfig m name protocol with
  | none =>
    .notFound ("Configuration '" ++ name ++ "' for " ++ protocol.toUpper ++
      " not found. Please create a configuration with this name and protocol first.")
  | some _ =>
    match generateProxyUrl m name protocol with
    | none => .generationFailure "Failed to generate proxy URL"
    | some proxyUrl => .redirect 302 proxyUrl

/-- JavaScript `String.prototype.endsWith`, on strings viewed as
sequences of characters. -/
def strEndsWith (s suffix : String) : Bool :=
  suffix.data.isSuffixOf s.data

/-- JavaScript `filename.slice(0, -n)`: drop the last `n` characters. -/
def strDropRight (s : String) (n : Nat) : String :=
  (s.data.take (s.data.length - n)).asString

/-- `router.get('/:filename')`: derive `(name, protocol)` from the
filename extension, then resolve. -/
def handleRedirect (m : Store) (filename : String) : RedirectResult :=
  if strEndsWith filename ".m3u8" then
    resolveRedirect m (strDropRight filename 5) .hls
  else if strEndsWith filename ".mpd" then
    resolveRedirect m (strDropRight filename 4) .dash
  else
    .badRequest "Invalid filename. Use .m3u8 for HLS or .mpd for DASH"

/-! ### Helper lemmas: decimal numerals and quote-free strings -/

/-- No double-quote character occurs in the string. -/
abbrev NoQuote (s : String) : Prop := '\x22' ∉ s.data

theorem digitChar_isDigit {n : Nat} (h : n < 10) : (Nat.digitChar n).isDigit = true := by
  interval_cases n <;> decide

theorem toDigitsCore_isDigit (fuel : Nat) :
    ∀ (n : Nat) (ds : List Char), (∀ c ∈ ds, c.isDigit = true) →
      ∀ c ∈ Nat.toDigitsCore 10 fuel n ds, c.isDigit = true := by
  induction fuel with
  | zero =>
    intro n ds hds c hc
    exact hds c hc
  | succ fuel ih =>
    intro n ds hds c hc
    rw [Nat.toDigitsCore] at hc
    have hd : ∀ c ∈ (n % 10).digitChar :: ds, c.isDigit = true := by
      intro c hc
      rcases List.mem_cons.1 hc with h | h
      · exact h ▸ digitChar_isDigit (Nat.mod_lt n (by norm_num))
      · exact hds c h
    by_cases h0 : n / 10 = 0
    · rw [if_pos h0] at hc
      exact hd c hc
    · rw [if_neg h0] at hc
      exact ih (n / 10) _ hd c hc

theorem natRepr_isDigit (n : Nat) : ∀ c ∈ (toString n).data, c.isDigit = true := by
  intro c hc
  exact toDigitsCore_isDigit (n + 1) n [] (by intro c hc; cases hc) c hc

theorem noQuote_natRepr (n : Nat) : NoQuote (toString n) := by
  intro hmem
  exact absurd (natRepr_isDigit n _ hmem) (by decide)

theorem NoQuote.append {a b : String} (ha : NoQuote a) (hb : NoQuote b) :
    NoQuote (a ++ b) := by
  intro h
  rw [String.data_append] at h
  rcases List.mem_append.1 h with h | h
  exacts [ha h, hb h]

theorem noQuote_joinSep (l : List String) (h : ∀ s ∈ l, NoQuote s) :
    NoQuote (joinSep "," l) := by
  induction l with
  | nil => intro hmem; cases hmem
  | cons x xs ih =>
    cases xs with
    | nil => exact h x (by simp)
    | cons y t =>
      have hx : NoQuote x := h x (by simp)
      have hrest : NoQuote (joinSep "," (y :: t)) :=
        ih (fun s hs => h s (List.mem_cons_of_mem _ hs))
      exact (hx.append (by decide)).append hrest

/-- The shape of every `key : value` entry placed into a descriptor
object by `generateProxyUrl`: a quote-free key whose value is a bare
number or the wildcard string. -/
abbrev FieldOk : String × JVal → Prop
  | (k, .num _) => NoQuote k
  | (k, .str s) => NoQuote k ∧ s = "*"
  | _ => False

theorem noQuote_fieldList (fields : List (String × JVal))
    (h : ∀ f ∈ fields, FieldOk f) : ∀ s ∈ fieldList fields, NoQuote s := by
  induction fields with
  | nil => intro s hs; cases hs
  | cons f rest ih =>
    obtain ⟨k, v⟩ := f
    have hf : FieldOk (k, v) := h _ (by simp)
    have hrest : ∀ s ∈ fieldList rest, NoQuote s :=
      ih (fun f hf => h f (List.mem_cons_of_mem _ hf))
    intro s hs
    cases v with
    | num n =>
      rcases List.mem_cons.1 hs with hhead | htail
      · subst hhead
        exact (NoQuote.append hf (by decide)).append (noQuote_natRepr n)
      · exact hrest s htail
    | str str =>
      obtain ⟨hk, rfl⟩ := hf
      rcases List.mem_cons.1 hs with hhead | htail
      · have hs' : s = k ++ ":*" := hhead
        subst hs'
        exact hk.append (by decide)
      · exact hrest s htail
    | bool b => exact hf.elim
    | arr xs => exact hf.elim
    | obj fs => exact hf.elim

theorem delay_objFields_ok (d : Delay) : ∀ f ∈ d.objFields, FieldOk f := by
  intro f hf
  rcases List.mem_filterMap.1 hf with ⟨a, ha, haf⟩
  simp only [id_eq] at haf
  subst haf
  simp only [Delay.objFields, List.mem_cons, List.not_mem_nil, or_false] at ha
  rcases ha with h | h | h | h | h | h <;>
    rcases Option.map_eq_some'.1 h.symm with ⟨v, hv, hvf⟩ <;> subst hvf
  · cases v with
    | num n => exact (by decide : NoQuote "i")
    | star => exact ⟨by decide, rfl⟩
  · exact (by decide : NoQuote "sq")
  · exact (by decide : NoQuote "rsq")
  · exact (by decide : NoQuote "br")
  · exact (by decide : NoQuote "l")
  · exact (by decide : NoQuote "ms")

theorem statusCode_objFields_ok (s : StatusCode) : ∀ f ∈ s.objFields, FieldOk f := by
  intro f hf
  rcases List.mem_filterMap.1 hf with ⟨a, ha, haf⟩
  simp only [id_eq] at haf
  subst haf
  simp only [StatusCode.objFields, List.mem_cons, List.not_mem_nil, or_false] at ha
  rcases ha with h | h | h | h | h <;>
    rcases Option.map_eq_some'.1 h.symm with ⟨v, hv, hvf⟩ <;> subst hvf
  · cases v with
    | num n => exact (by decide : NoQuote "i")
    | star => exact ⟨by decide, rfl⟩
  · exact (by decide : NoQuote "sq")
  · exact (by decide : NoQuote "rsq")
  · exact (by decide : NoQuote "br")
  · exact (by decide : NoQuote "code")

theorem timeout_objFields_ok (t : Timeout) : ∀ f ∈ t.objFields, FieldOk f := by
  intro f hf
  rcases List.mem_filterMap.1 hf with ⟨a, ha, haf⟩
  simp only [id_eq] at haf
  subst haf
  simp only [Timeout.objFields, List.mem_cons, List.not_mem_nil, or_false] at ha
  rcases ha with h | h | h | h <;>
    rcases Option.map_eq_some'.1 h.symm with ⟨v, hv, hvf⟩ <;> subst hvf
  · cases v with
    | num n => exact (by decide : NoQuote "i")
    | star => exact ⟨by decide, rfl⟩
  · exact (by decide : NoQuote "sq")
  · exact (by decide : NoQuote "rsq")
  · exact (by decide : NoQuote "br")

theorem throttle_objFields_ok (t : Throttle) : ∀ f ∈ t.objFields, FieldOk f := by
  intro f hf
  rcases List.mem_filterMap.1 hf with ⟨a, ha, haf⟩
  simp only [id_eq] at haf
  subst haf
  simp only [Throttle.objFields, List.mem_cons, List.not_mem_nil, or_false] at ha
  rcases ha with h | h | h | h | h <;>
    rcases Option.map_eq_some'.1 h.symm with ⟨v, hv, hvf⟩ <;> subst hvf
  · cases v with
    | num n => exact (by decide : NoQuote "i")
    | star => exact ⟨by decide, rfl⟩
  · exact (by decide : NoQuote "sq")
  · exact (by decide : NoQuote "rsq")
  · exact (by decide : NoQuote "br")
  · exact (by decide : NoQuote "rate")

theorem noQuote_obj (fields : List (String × JVal))
    (h : ∀ f ∈ fields, FieldOk f) : NoQuote (toUnquotedJson (.obj fields)) := by
  rw [toUnquotedJson]
  exact (NoQuote.append (by decide)
    (noQuote_joinSep _ (noQuote_fieldList _ h))).append (by decide)

theorem noQuote_delay (d : Delay) : NoQuote (toUnquotedJson d.toJVal) := by
  rw [Delay.toJVal]
  exact noQuote_obj _ (delay_objFields_ok d)

theorem noQuote_statusCode (s : StatusCode) : NoQuote (toUnquotedJson s.toJVal) := by
  rw [StatusCode.toJVal]
  exact noQuote_obj _ (statusCode_objFields_ok s)

theorem noQuote_timeout (t : Timeout) : NoQuote (toUnquotedJson t.toJVal) := by
  rw [Timeout.toJVal]
  exact noQuote_obj _ (timeout_objFields_ok t)

theorem noQuote_throttle (t : Throttle) : NoQuote (toUnquotedJson t.toJVal) := by
  rw [Throttle.toJVal]
  exact noQuote_obj _ (throttle_objFields_ok t)

theorem delay_star_ms_encoding (ms : Nat) :
    toUnquotedJson (Delay.toJVal { i := some .star, ms := some ms }) =
      "\x7bi:*,ms:" ++ toString ms ++ "\x7d" := by
  rw [Delay.toJVal]
  rw [show Delay.objFields { i := some IndexVal.star, ms := some ms } =
      [("i", JVal.str "*"), ("ms", JVal.num ms)] from rfl]
  rw [toUnquotedJson, fieldList, fieldList, fieldList]
  simp [joinSep, ← String.append_assoc]

theorem timeout_br_encoding (br : Nat) :
    toUnquotedJson (Timeout.toJVal { br := some br }) =
      "\x7bbr:" ++ toString br ++ "\x7d" := by
  rw [Timeout.toJVal]
  rw [show Timeout.objFields { br := some br } = [("br", JVal.num br)] from rfl]
  rw [toUnquotedJson, fieldList, fieldList]
  simp [joinSep, ← String.append_assoc]

/-- Claim C1: every corruption descriptor is serialized by the query
encoder with unquoted object keys and the wildcard index emitted as a
bare `*` (no double-quote character ever appears in a descriptor's
encoding), unset fields being omitted entirely; in particular a Delay
with wildcard targeting and `ms` set encodes as `{i:*,ms:<ms>}` — so
`{i:*,ms:1000}` for `ms = 1000` — and a Timeout with only `br` set
encodes as `{br:<br>}` — so `{br:2000000}` for `br = 2000000`. -/
theorem claim_C1_encoder_unquoted_wildcard_sparse :
    (∀ d : Delay, NoQuote (toUnquotedJson d.toJVal)) ∧
    (∀ s : StatusCode, NoQuote (toUnquotedJson s.toJVal)) ∧
    (∀ t : Timeout, NoQuote (toUnquotedJson t.toJVal)) ∧
    (∀ t : Throttle, NoQuote (toUnquotedJson t.toJVal)) ∧
    (∀ ms : Nat, toUnquotedJson (Delay.toJVal { i := some .star, ms := some ms }) =
      "\x7bi:*,ms:" ++ toString ms ++ "\x7d") ∧
    toUnquotedJson (Delay.toJVal { i := some .star, ms := some 1000 }) = "\x7bi:*,ms:1000\x7d" ∧
    (∀ br : Nat, toUnquotedJson (Timeout.toJVal { br := some br }) =
      "\x7bbr:" ++ toString br ++ "\x7d") ∧
    toUnquotedJson (Timeout.toJVal { br := some 2000000 }) = "\x7bbr:2000000\x7d" :=
  ⟨noQuote_delay, noQuote_statusCode, noQuote_timeout, noQuote_throttle,
   delay_star_ms_encoding,
   by rw [delay_star_ms_encoding]; rfl,
   timeout_br_encoding,
   by rw [timeout_br_encoding]; rfl⟩

/-! ### The query-string layout described by the spec (§4.2) -/

/-- Modelled from the spec's words: the endpoint path selected by
protocol. -/
def specEndpoint : Protocol → String
  | .hls => "/api/v2/manifests/hls/proxy-master.m3u8"
  | .dash => "/api/v2/manifests/dash/proxy-master.mpd"

/-- Modelled from the spec's words: the query always starts with
`url=<sourceUrl>`, followed by exactly one parameter per **non-empty**
corruption list, named `delay`, `statusCode`, `timeout`, `throttle`, in
that fixed order; an empty list contributes no parameter. -/
def specQueryParams (config : ChaosProxyConfig) : List String :=
  ("url=" ++ config.sourceUrl) ::
  ((if config.delays = [] then [] else
      ["delay=" ++ toUnquotedJson (.arr (config.delays.map Delay.toJVal))]) ++
   (if config.statusCodes = [] then [] else
      ["statusCode=" ++ toUnquotedJson (.arr (config.statusCodes.map StatusCode.toJVal))]) ++
   (if config.timeouts = [] then [] else
      ["timeout=" ++ toUnquotedJson (.arr (config.timeouts.map Timeout.toJVal))]) ++
   (if config.throttles = [] then [] else
      ["throttle=" ++ toUnquotedJson (.arr (config.throttles.map Throttle.toJVal))]))

theorem ite_length_param {α : Type} [DecidableEq α] (l : List α) (s : String) :
    (if l.length > 0 then [s] else []) = (if l = [] then [] else [s]) := by
  by_cases h : l = [] <;> simp [h, List.length_pos]

theorem generateProxyUrlOfConfig_eq (config : ChaosProxyConfig)
    (h : ¬ config.sourceUrl = "") :
    generateProxyUrlOfConfig config =
      some (config.instanceUrl ++ specEndpoint config.protocol ++ "?" ++
        joinSep "&" (specQueryParams config)) := by
  rcases config with ⟨name, iu, su, proto, st, desc, dls, scs, tms, ths⟩
  cases proto <;>
    simp [generateProxyUrlOfConfig, if_neg h, specQueryParams, specEndpoint,
      ite_length_param, List.append_assoc]

theorem joinSep_cons_prefix (sep x : String) (l : List String) :
    ∃ r, joinSep sep (x :: l) = x ++ r := by
  cases l with
  | nil => exact ⟨"", (String.append_empty x).symm⟩
  | cons y t => exact ⟨sep ++ joinSep sep (y :: t), by rw [joinSep, String.append_assoc]⟩

/-- Claim C2: for every configuration with a non-empty source URL, the
generated proxy URL is the endpoint for its protocol followed by a query
string that starts with `url=<sourceUrl>` (the source URL embedded
verbatim, with no percent-encoding) and continues with exactly one
parameter per non-empty corruption list, named `delay`, `statusCode`,
`timeout`, `throttle`, in that fixed order; empty lists contribute no
parameter. -/
theorem claim_C2_query_string_layout (config : ChaosProxyConfig)
    (h : ¬ config.sourceUrl = "") :
    generateProxyUrlOfConfig config =
      some (config.instanceUrl ++ specEndpoint config.protocol ++ "?" ++
        joinSep "&" (specQueryParams config)) ∧
    ∃ rest : String,
      generateProxyUrlOfConfig config =
        some (config.instanceUrl ++ specEndpoint config.protocol ++ "?" ++
          "url=" ++ config.sourceUrl ++ rest) := by
  refine ⟨generateProxyUrlOfConfig_eq config h, ?_⟩
  obtain ⟨r, hr⟩ := joinSep_cons_prefix "&" ("url=" ++ config.sourceUrl)
    ((if config.delays = [] then [] else
        ["delay=" ++ toUnquotedJson (.arr (config.delays.map Delay.toJVal))]) ++
     (if config.statusCodes = [] then [] else
        ["statusCode=" ++ toUnquotedJson (.arr (config.statusCodes.map StatusCode.toJVal))]) ++
     (if config.timeouts = [] then [] else
        ["timeout=" ++ toUnquotedJson (.arr (config.timeouts.map Timeout.toJVal))]) ++
     (if config.throttles = [] then [] else
        ["throttle=" ++ toUnquotedJson (.arr (config.throttles.map Throttle.toJVal))]))
  refine ⟨r, ?_⟩
  rw [generateProxyUrlOfConfig_eq config h]
  rw [show specQueryParams config = ("url=" ++ config.sourceUrl) :: _ from rfl, hr]
  simp [← String.append_assoc]

/-- Witness for C2 at a concrete configuration. -/
theorem claim_C2_witness :
    generateProxyUrlOfConfig
        { name := "w2", instanceUrl := "http://proxy", sourceUrl := "http://src/x.m3u8",
          protocol := .hls, delays := [{ i := some .star, ms := some 1000 }] } =
      some ("http://proxy" ++ specEndpoint .hls ++ "?" ++
        joinSep "&" (specQueryParams
          { name := "w2", instanceUrl := "http://proxy", sourceUrl := "http://src/x.m3u8",
            protocol := .hls, delays := [{ i := some .star, ms := some 1000 }] })) :=
  (claim_C2_query_string_layout _ (by decide)).1

/-! ### Store lemmas -/

theorem mapHas_mapDelete (m : Store) (k : String) : mapHas (mapDelete m k) k = false := by
  rw [mapHas, mapDelete, Bool.eq_false_iff]
  intro h
  rcases List.any_eq_true.1 h with ⟨p, hp, hpk⟩
  have hmem := List.mem_filter.1 hp
  simp only [decide_eq_true_eq] at hpk hmem
  exact hmem.2 hpk

theorem mapDelete_eq_self (m : Store) (k : String) (h : mapHas m k = false) :
    mapDelete m k = m := by
  rw [mapDelete, List.filter_eq_self]
  intro a ha
  rw [mapHas, Bool.eq_false_iff] at h
  simp only [decide_eq_true_eq]
  intro hak
  exact h (List.any_eq_true.2 ⟨a, ha, by simp [hak]⟩)

theorem saveConfig_eq (m : Store) (c : ChaosProxyConfig) :
    saveConfig m c =
      mapDelete m (getKey c.name c.protocol) ++ [(getKey c.name c.protocol, c)] := by
  rw [saveConfig]
  by_cases h : mapHas m (getKey c.name c.protocol) = true
  · rw [if_pos h, mapSet, if_neg (by rw [mapHas_mapDelete]; exact Bool.false_ne_true)]
  · have h' : mapHas m (getKey c.name c.protocol) = false := Bool.eq_false_iff.2 h
    rw [if_neg h, mapSet, if_neg (by rw [h']; exact Bool.false_ne_true)]
    rw [mapDelete_eq_self m _ h']

theorem find?_mapDelete_self (m : Store) (k : String) :
    (mapDelete m k).find? (fun p => p.1 = k) = none := by
  rw [List.find?_eq_none]
  intro p hp
  have hmem := List.mem_filter.1 hp
  simp only [decide_eq_true_eq] at hmem ⊢
  exact hmem.2

theorem getConfig_saveConfig_same (m : Store) (c : ChaosProxyConfig) :
    getConfig (saveConfig m c) c.name c.protocol = some c := by
  rw [getConfig, mapGet, saveConfig_eq, List.find?_append, find?_mapDelete_self]
  simp [List.find?]

theorem find?_filter_of_imp {α : Type} (l : List α) (p q : α → Bool)
    (h : ∀ x, p x = true → q x = true) :
    (l.filter q).find? p = l.find? p := by
  induction l with
  | nil => rfl
  | cons x xs ih =>
    by_cases hp : p x = true
    · rw [List.filter_cons_of_pos (h x hp), List.find?_cons_of_pos _ hp,
        List.find?_cons_of_pos _ hp]
    · by_cases hq : q x = true
      · rw [List.filter_cons_of_pos hq, List.find?_cons_of_neg _ hp,
          List.find?_cons_of_neg _ hp, ih]
      · rw [List.filter_cons_of_neg hq, List.find?_cons_of_neg _ hp, ih]

theorem getConfig_mapDelete_other (m : Store) (k : String) (name : String)
    (q : Protocol) (h : getKey name q ≠ k) :
    getConfig (mapDelete m k) name q = getConfig m name q := by
  rw [getConfig, getConfig, mapGet, mapGet, mapDelete]
  refine congrArg (Option.map _) (find?_filter_of_imp m _ _ ?_)
  intro x hx
  simp only [decide_eq_true_eq] at hx ⊢
  rw [hx]
  exact h

theorem getConfig_saveConfig_other (m : Store) (c : ChaosProxyConfig)
    (name : String) (q : Protocol)
    (h : getKey name q ≠ getKey c.name c.protocol) :
    getConfig (saveConfig m c) name q = getConfig m name q := by
  rw [saveConfig_eq, getConfig, mapGet, List.find?_append]
  have h2 : List.find? (fun p => p.1 = getKey name q) [(getKey c.name c.protocol, c)] = none := by
    rw [List.find?_eq_none]
    intro p hp
    simp only [List.mem_singleton] at hp
    subst hp
    simp only [decide_eq_true_eq]
    exact fun he => h he.symm
  rw [h2, Option.or_none]
  exact getConfig_mapDelete_other m _ name q h

theorem listConfigs_saveConfig (m : Store) (c : ChaosProxyConfig) :
    listConfigs (saveConfig m c) =
      c :: listConfigs (mapDelete m (getKey c.name c.protocol)) := by
  rw [saveConfig_eq, listConfigs, listConfigs, List.map_append, List.reverse_append]
  rfl

theorem filter_key_saveConfig (m : Store) (c : ChaosProxyConfig) :
    ((saveConfig m c).filter
      (fun p => p.1 = getKey c.name c.protocol)).length = 1 := by
  rw [saveConfig_eq, List.filter_append]
  have h1 : (mapDelete m (getKey c.name c.protocol)).filter
      (fun p => p.1 = getKey c.name c.protocol) = [] := by
    rw [List.filter_eq_nil_iff]
    intro p hp
    have hmem := List.mem_filter.1 hp
    simp only [decide_eq_true_eq] at hmem ⊢
    exact hmem.2
  rw [h1]
  simp

/-- The last character of a composite key is the last character of the
protocol token. -/
theorem getKey_data_getLast (n : String) (p : Protocol) :
    ((getKey n p).data).getLast? = some (if p = Protocol.hls then 's' else 'h') := by
  cases p <;> rw [getKey, String.data_append, List.getLast?_append] <;> rfl

/-- The composite keys of the two protocols are distinct for any names
(the key strings end in different characters). -/
theorem getKey_protocol_ne (n1 n2 : String) {p q : Protocol} (hpq : p ≠ q) :
    getKey n1 p ≠ getKey n2 q := by
  intro h
  have h1 := getKey_data_getLast n1 p
  rw [h, getKey_data_getLast n2 q] at h1
  cases p <;> cases q <;> first | exact hpq rfl | exact absurd h1 (by decide)

/-- Claim C3: after two saves under the same `(name, protocol)` key
exactly one record exists under that key, its content is the second
payload, and it occupies the first position of `listConfigs`; more
generally a save always places the saved record at the front of
`listConfigs`, ahead of all remaining records (most-recently-saved-first
order). -/
theorem claim_C3_upsert_most_recent_first (m : Store) (c1 c2 : ChaosProxyConfig)
    (_hn : c1.name = c2.name) (_hp : c1.protocol = c2.protocol) :
    (((saveConfig (saveConfig m c1) c2).filter
        (fun p => p.1 = getKey c2.name c2.protocol)).length = 1) ∧
    getConfig (saveConfig (saveConfig m c1) c2) c2.name c2.protocol = some c2 ∧
    (listConfigs (saveConfig (saveConfig m c1) c2)).head? = some c2 ∧
    (∀ (m0 : Store) (c : ChaosProxyConfig),
      listConfigs (saveConfig m0 c) =
        c :: listConfigs (mapDelete m0 (getKey c.name c.protocol))) := by
  refine ⟨filter_key_saveConfig _ c2, getConfig_saveConfig_same _ c2, ?_,
    listConfigs_saveConfig⟩
  rw [listConfigs_saveConfig]
  rfl

/-- Witness for C3 at concrete configurations sharing a key. -/
theorem claim_C3_witness :
    getConfig
        (saveConfig
          (saveConfig []
            { name := "a", instanceUrl := "u", sourceUrl := "s1", protocol := .hls })
          { name := "a", instanceUrl := "u", sourceUrl := "s2", protocol := .hls })
        "a" Protocol.hls =
      some { name := "a", instanceUrl := "u", sourceUrl := "s2", protocol := .hls } :=
  (claim_C3_upsert_most_recent_first []
    { name := "a", instanceUrl := "u", sourceUrl := "s1", protocol := .hls }
    { name := "a", instanceUrl := "u", sourceUrl := "s2", protocol := .hls }
    rfl rfl).2.1

/-- Claim C4: saving a configuration and then fetching it by the same
`(name, protocol)` returns exactly the record that was saved (hence the
same descriptor lists, source URL, protocol and stream type). -/
theorem claim_C4_save_get_roundtrip (m : Store) (c : ChaosProxyConfig) :
    getConfig (saveConfig m c) c.name c.protocol = some c :=
  getConfig_saveConfig_same m c

/-- Claim C5: the entries `(name, hls)` and `(name, dash)` are
independent: saving a record under one protocol never changes what is
stored under the other, and deleting one leaves the other unchanged
(in particular still present if it was present). -/
theorem claim_C5_protocol_key_independence (m : Store) (name : String)
    (c : ChaosProxyConfig) (p q : Protocol) (hpq : p ≠ q)
    (hcn : c.name = name) (hcp : c.protocol = p) :
    getConfig (saveConfig m c) name q = getConfig m name q ∧
    getConfig (deleteConfig m name p).2 name q = getConfig m name q := by
  have hkey : getKey name q ≠ getKey name p := getKey_protocol_ne name name (Ne.symm hpq)
  constructor
  · refine getConfig_saveConfig_other m c name q ?_
    rw [hcn, hcp]
    exact hkey
  · exact getConfig_mapDelete_other m _ name q hkey

/-- Witness for C5: one name stored under both protocols. -/
theorem claim_C5_witness :
    (getConfig
        (saveConfig [("x:dash",
          { name := "x", instanceUrl := "u", sourceUrl := "sd", protocol := .dash })]
          { name := "x", instanceUrl := "u", sourceUrl := "sh", protocol := .hls })
        "x" Protocol.dash =
      getConfig [("x:dash",
        { name := "x", instanceUrl := "u", sourceUrl := "sd", protocol := .dash })]
        "x" Protocol.dash) ∧
    (getConfig
        (deleteConfig [("x:dash",
          { name := "x", instanceUrl := "u", sourceUrl := "sd", protocol := .dash })]
          "x" Protocol.hls).2
        "x" Protocol.dash =
      getConfig [("x:dash",
        { name := "x", instanceUrl := "u", sourceUrl := "sd", protocol := .dash })]
        "x" Protocol.dash) :=
  claim_C5_protocol_key_independence
    [("x:dash", { name := "x", instanceUrl := "u", sourceUrl := "sd", protocol := .dash })]
    "x" { name := "x", instanceUrl := "u", sourceUrl := "sh", protocol := .hls }
    Protocol.hls Protocol.dash (by decide) rfl rfl

/-! ### Redirect-resolver lemmas -/

/-- The public filename extension of each protocol. -/
def Protocol.extensionStr : Protocol → String
  | .hls => ".m3u8"
  | .dash => ".mpd"

theorem strEndsWith_append (s t : String) : strEndsWith (s ++ t) t = true := by
  rw [strEndsWith, String.data_append]
  exact List.isSuffixOf_iff_suffix.2 (List.suffix_append _ _)

theorem strDropRight_append (s t : String) :
    strDropRight (s ++ t) t.data.length = s := by
  rw [strDropRight, String.data_append]
  rw [show (s.data ++ t.data).length - t.data.length = s.data.length by simp]
  rw [List.take_left]
  cases s
  rfl

/-- A filename built with the `.mpd` extension never passes the `.m3u8`
check (the two extensions end in different characters). -/
theorem mpd_not_m3u8 (name : String) :
    strEndsWith (name ++ ".mpd") ".m3u8" = false := by
  rw [strEndsWith, String.data_append, Bool.eq_false_iff]
  intro hsuf
  rcases List.isSuffixOf_iff_suffix.1 hsuf with ⟨u, hu⟩
  have h8 : (u ++ (".m3u8" : String).data).getLast? = some '8' := by
    rw [List.getLast?_append]
    rfl
  rw [hu, List.getLast?_append] at h8
  have h9 : some 'd' = some '8' := h8
  exact absurd h9 (by decide)

theorem handleRedirect_name_ext (m : Store) (name : String) (p : Protocol) :
    handleRedirect m (name ++ p.extensionStr) = resolveRedirect m name p := by
  cases p
  · rw [show Protocol.extensionStr .hls = ".m3u8" from rfl]
    rw [handleRedirect, if_pos (strEndsWith_append name ".m3u8")]
    rw [show (5 : Nat) = (".m3u8" : String).data.length from rfl, strDropRight_append]
  · rw [show Protocol.extensionStr .dash = ".mpd" from rfl]
    rw [handleRedirect, if_neg (by rw [mpd_not_m3u8]; exact Bool.false_ne_true),
      if_pos (strEndsWith_append name ".mpd")]
    rw [show (4 : Nat) = (".mpd" : String).data.length from rfl, strDropRight_append]

theorem resolveRedirect_found (m : Store) (name : String) (p : Protocol)
    (c : ChaosProxyConfig) (hc : getConfig m name p = some c) (u : String)
    (hu : generateProxyUrlOfConfig c = some u) :
    resolveRedirect m name p = .redirect 302 u := by
  simp only [resolveRedirect, generateProxyUrl, hc, hu]

/-- Claim C6: the redirect resolver caches nothing — after a
configuration stored under some key is replaced by an updated version,
requesting the redirect path again yields a redirect whose destination
is the encoder output for the updated configuration. -/
theorem claim_C6_redirect_freshness (m : Store) (cOld cNew : ChaosProxyConfig)
    (_hold : getConfig m cNew.name cNew.protocol = some cOld)
    (hsrc : ¬ cNew.sourceUrl = "") :
    ∃ u, generateProxyUrlOfConfig cNew = some u ∧
      handleRedirect (saveConfig m cNew) (cNew.name ++ cNew.protocol.extensionStr) =
        .redirect 302 u := by
  have hu : ∃ u, generateProxyUrlOfConfig cNew = some u := by
    rw [generateProxyUrlOfConfig, if_neg hsrc]
    exact ⟨_, rfl⟩
  obtain ⟨u, hu⟩ := hu
  refine ⟨u, hu, ?_⟩
  rw [handleRedirect_name_ext]
  exact resolveRedirect_found _ _ _ cNew (getConfig_saveConfig_same m cNew) u hu

/-- Witness for C6: a stored Delay configuration updated from
`ms = 1000` to `ms = 2000`. -/
theorem claim_C6_witness :
    ∃ u,
      generateProxyUrlOfConfig
          { name := "f", instanceUrl := "http://p", sourceUrl := "http://s/m.m3u8",
            protocol := .hls, delays := [{ i := some .star, ms := some 2000 }] } = some u ∧
      handleRedirect
          (saveConfig
            [("f:hls",
              { name := "f", instanceUrl := "http://p", sourceUrl := "http://s/m.m3u8",
                protocol := .hls, delays := [{ i := some .star, ms := some 1000 }] })]
            { name := "f", instanceUrl := "http://p", sourceUrl := "http://s/m.m3u8",
              protocol := .hls, delays := [{ i := some .star, ms := some 2000 }] })
          ("f" ++ Protocol.extensionStr .hls) =
        .redirect 302 u :=
  claim_C6_redirect_freshness
    [("f:hls",
      { name := "f", instanceUrl := "http://p", sourceUrl := "http://s/m.m3u8",
        protocol := .hls, delays := [{ i := some .star, ms := some 1000 }] })]
    { name := "f", instanceUrl := "http://p", sourceUrl := "http://s/m.m3u8",
      protocol := .hls, delays := [{ i := some .star, ms := some 1000 }] }
    { name := "f", instanceUrl := "http://p", sourceUrl := "http://s/m.m3u8",
      protocol := .hls, delays := [{ i := some .star, ms := some 2000 }] }
    rfl (by decide)

/-- Claim C7: a stored record with an empty source URL has no encoder
output (`none`, never an empty-string URL) and the redirect endpoint
reports a server-side generation failure for it. -/
theorem claim_C7_missing_source_url (m : Store) (name : String) (p : Protocol)
    (c : ChaosProxyConfig) (hget : getConfig m name p = some c)
    (hsrc : c.sourceUrl = "") :
    generateProxyUrlOfConfig c = none ∧
    generateProxyUrl m name p = none ∧
    handleRedirect m (name ++ p.extensionStr) =
      .generationFailure "Failed to generate proxy URL" := by
  have h1 : generateProxyUrlOfConfig c = none := by
    rw [generateProxyUrlOfConfig, if_pos hsrc]
  refine ⟨h1, ?_, ?_⟩
  · simp only [generateProxyUrl, hget, h1]
  · rw [handleRedirect_name_ext]
    simp only [resolveRedirect, generateProxyUrl, hget, h1]

/-- Witness for C7 at a concrete record with empty source URL. -/
theorem claim_C7_witness :
    generateProxyUrlOfConfig
        { name := "e", instanceUrl := "http://p", sourceUrl := "", protocol := .hls } =
      none ∧
    generateProxyUrl
        [("e:hls",
          { name := "e", instanceUrl := "http://p", sourceUrl := "", protocol := .hls })]
        "e" Protocol.hls = none ∧
    handleRedirect
        [("e:hls",
          { name := "e", instanceUrl := "http://p", sourceUrl := "", protocol := .hls })]
        ("e" ++ Protocol.extensionStr .hls) =
      .generationFailure "Failed to generate proxy URL" :=
  claim_C7_missing_source_url
    [("e:hls",
      { name := "e", instanceUrl := "http://p", sourceUrl := "", protocol := .hls })]
    "e" Protocol.hls
    { name := "e", instanceUrl := "http://p", sourceUrl := "", protocol := .hls }
    rfl rfl

/-- Claim C8: a redirect filename with an unrecognized extension is
rejected with a client error for every store (so independently of any
lookup), and a recognized filename whose derived `(name, protocol)` key
is absent yields a not-found response whose message names both the name
and the protocol. -/
theorem claim_C8_redirect_rejections :
    (∀ (m : Store) (filename : String),
      strEndsWith filename ".m3u8" = false → strEndsWith filename ".mpd" = false →
      handleRedirect m filename =
        .badRequest "Invalid filename. Use .m3u8 for HLS or .mpd for DASH") ∧
    (∀ (m : Store) (name : String),
      getConfig m name .hls = none →
      handleRedirect m (name ++ ".m3u8") =
        .notFound ("Configuration '" ++ name ++ "' for " ++ Protocol.toUpper .hls ++
          " not found. Please create a configuration with this name and protocol first.")) ∧
    (∀ (m : Store) (name : String),
      getConfig m name .dash = none →
      handleRedirect m (name ++ ".mpd") =
        .notFound ("Configuration '" ++ name ++ "' for " ++ Protocol.toUpper .dash ++
          " not found. Please create a configuration with this name and protocol first.")) := by
  refine ⟨?_, ?_, ?_⟩
  · intro m filename h1 h2
    rw [handleRedirect, if_neg (by rw [h1]; exact Bool.false_ne_true),
      if_neg (by rw [h2]; exact Bool.false_ne_true)]
  · intro m name h
    have he := handleRedirect_name_ext m name .hls
    rw [show Protocol.extensionStr .hls = ".m3u8" from rfl] at he
    rw [he]
    simp only [resolveRedirect, h]
  · intro m name h
    have he := handleRedirect_name_ext m name .dash
    rw [show Protocol.extensionStr .dash = ".mpd" from rfl] at he
    rw [he]
    simp only [resolveRedirect, h]

/-- Witness for C8: an unknown extension and two unknown names on the
empty store. -/
theorem claim_C8_witness :
    handleRedirect [] "name.xyz" =
      .badRequest "Invalid filename. Use .m3u8 for HLS or .mpd for DASH" ∧
    handleRedirect [] ("doesnotexist" ++ ".m3u8") =
      .notFound ("Configuration '" ++ "doesnotexist" ++ "' for " ++ Protocol.toUpper .hls ++
        " not found. Please create a configuration with this name and protocol first.") ∧
    handleRedirect [] ("missing" ++ ".mpd") =
      .notFound ("Configuration '" ++ "missing" ++ "' for " ++ Protocol.toUpper .dash ++
        " not found. Please create a configuration with this name and protocol first.") :=
  ⟨claim_C8_redirect_rejections.1 [] "name.xyz" (by decide) (by decide),
   claim_C8_redirect_rejections.2.1 [] "doesnotexist" rfl,
   claim_C8_redirect_rejections.2.2 [] "missing" rfl⟩

/-- Claim C9: a save request whose name does not match
`^[a-zA-Z0-9_-]+$` (including an absent or empty name, both of which
fail the required-field check first) is rejected with a 400 validation
error and the store is left exactly as it was. -/
theorem claim_C9_bad_name_rejected (m : Store) (body : PostBody)
    (hname : ∀ n, body.name = some n → testNameRegex n = false) :
    (handlePost m body).2 = m ∧ (handlePost m body).1.status = 400 := by
  rcases body with ⟨bn, bi, bs, bp, bst, bde, bdl, bsc, bti, bth⟩
  rcases bn with _ | n
  · exact ⟨rfl, rfl⟩
  · have hreg : testNameRegex n = false := hname n rfl
    by_cases hn0 : n = ""
    · subst hn0
      exact ⟨rfl, rfl⟩
    · rcases bi with _ | iu
      · simp [handlePost, truthyStr, hn0, PostResult.status]
      · by_cases hi0 : iu = ""
        · subst hi0
          simp [handlePost, truthyStr, hn0, PostResult.status]
        · rcases bs with _ | su
          · simp [handlePost, truthyStr, hn0, hi0, PostResult.status]
          · by_cases hs0 : su = ""
            · subst hs0
              simp [handlePost, truthyStr, hn0, hi0, PostResult.status]
            · rcases bp with _ | p
              · simp [handlePost, truthyStr, hn0, hi0, hs0, PostResult.status]
              · simp [handlePost, truthyStr, hn0, hi0, hs0, hreg, PostResult.status]

/-- Witness for C9: the name `"bad name!"` on the empty store. -/
theorem claim_C9_witness :
    (handlePost []
        { name := some "bad name!", instanceUrl := some "http://u",
          sourceUrl := some "http://s", protocol := some .hls }).2 = [] ∧
    (handlePost []
        { name := some "bad name!", instanceUrl := some "http://u",
          sourceUrl := some "http://s", protocol := some .hls }).1.status = 400 :=
  claim_C9_bad_name_rejected []
    { name := some "bad name!", instanceUrl := some "http://u",
      sourceUrl := some "http://s", protocol := some .hls }
    (by
      intro n hn
      have h : n = "bad name!" := (Option.some.inj hn).symm
      subst h
      decide)

/-! ### Persistence round trip (C10) -/

/-- Store well-formedness: keys are pairwise distinct and every entry is
stored under the composite key of its own record — the invariant every
store reachable through `saveConfig`/`deleteConfig` from the empty store
enjoys. -/
def WellFormed (m : Store) : Prop :=
  (m.map Prod.fst).Nodup ∧ ∀ p ∈ m, p.1 = getKey p.2.name p.2.protocol

theorem mapSet_append_of_not_has (m : Store) (k : String) (c : ChaosProxyConfig)
    (h : mapHas m k = false) : mapSet m k c = m ++ [(k, c)] := by
  rw [mapSet, if_neg (by rw [h]; exact Bool.false_ne_true)]

theorem mapHas_append (m1 m2 : Store) (k : String) :
    mapHas (m1 ++ m2) k = (mapHas m1 k || mapHas m2 k) := by
  rw [mapHas, mapHas, mapHas, List.any_append]

theorem loadFromFile_go (cs : List ChaosProxyConfig) :
    ∀ acc : Store,
      (∀ c ∈ cs, mapHas acc (getKey c.name c.protocol) = false) →
      (cs.map (fun c => getKey c.name c.protocol)).Nodup →
      cs.foldl (fun m config => mapSet m (getKey config.name config.protocol) config) acc =
        acc ++ cs.map (fun c => (getKey c.name c.protocol, c)) := by
  induction cs with
  | nil =>
    intro acc _ _
    simp
  | cons c rest ih =>
    intro acc hdisj hnodup
    rw [List.foldl_cons, mapSet_append_of_not_has _ _ _ (hdisj c (by simp))]
    have hA : ∀ c' ∈ rest,
        mapHas (acc ++ [(getKey c.name c.protocol, c)]) (getKey c'.name c'.protocol) = false := by
      intro c' hc'
      rw [mapHas_append, hdisj c' (by simp [hc'])]
      have hne : getKey c'.name c'.protocol ≠ getKey c.name c.protocol := by
        intro he
        have hmem : getKey c'.name c'.protocol ∈
            rest.map (fun c => getKey c.name c.protocol) :=
          List.mem_map_of_mem _ hc'
        rw [he] at hmem
        exact (List.nodup_cons.1 hnodup).1 hmem
      simp [mapHas, hne.symm]
    rw [ih (acc ++ [(getKey c.name c.protocol, c)]) hA (List.nodup_cons.1 hnodup).2]
    simp

theorem map_key_pair_eq_self (m : Store)
    (h : ∀ p ∈ m, p.1 = getKey p.2.name p.2.protocol) :
    m.map (fun p => (getKey p.2.name p.2.protocol, p.2)) = m := by
  induction m with
  | nil => rfl
  | cons x xs ih =>
    rw [List.map_cons, ih (fun p hp => h p (by simp [hp]))]
    obtain ⟨k, c⟩ := x
    have hx := h (k, c) (by simp)
    simp only at hx
    rw [← hx]

theorem loadFromFile_fileContents (m : Store) (h : WellFormed m) :
    loadFromFile (fileContents m) = m.reverse := by
  rw [loadFromFile, fileContents]
  have hmapkeys : (m.map (fun p => p.2)).map (fun c => getKey c.name c.protocol) =
      m.map Prod.fst := by
    rw [List.map_map]
    refine List.map_congr_left ?_
    intro p hp
    exact (h.2 p hp).symm
  have hkeys : (((m.map (fun p => p.2)).reverse).map
      (fun c => getKey c.name c.protocol)).Nodup := by
    rw [List.map_reverse, List.nodup_reverse, hmapkeys]
    exact h.1
  rw [loadFromFile_go _ [] (fun c _ => rfl) hkeys, List.nil_append]
  rw [List.map_reverse, List.map_map]
  rw [show ((fun c : ChaosProxyConfig => (getKey c.name c.protocol, c)) ∘ fun p => p.2)
      = (fun p : String × ChaosProxyConfig => (getKey p.2.name p.2.protocol, p.2)) from rfl]
  rw [map_key_pair_eq_self m h.2]

theorem mapGet_reverse (m : Store) (k : String) :
    (m.map Prod.fst).Nodup → mapGet m.reverse k = mapGet m k := by
  induction m with
  | nil => intro _; rfl
  | cons x xs ih =>
    intro hnd
    have hnd' : (xs.map Prod.fst).Nodup := (List.nodup_cons.1 (by simpa using hnd)).2
    have hxs : x.1 ∉ xs.map Prod.fst := (List.nodup_cons.1 (by simpa using hnd)).1
    rw [List.reverse_cons, mapGet, mapGet, List.find?_append]
    by_cases hx : x.1 = k
    · have h1 : xs.reverse.find? (fun p => p.1 = k) = none := by
        rw [List.find?_eq_none]
        intro p hp
        simp only [decide_eq_true_eq]
        intro he
        exact hxs (by rw [show x.1 = p.1 from hx.trans he.symm]; exact
          List.mem_map_of_mem _ (List.mem_reverse.1 hp))
      rw [h1, List.find?_cons_of_pos _ (by simpa using hx),
        List.find?_cons_of_pos _ (by simpa using hx)]
      rfl
    · have h2 : List.find? (fun p => p.1 = k) [x] = none := by
        rw [List.find?_cons_of_neg _ (by simpa using hx)]
        rfl
      rw [h2, Option.or_none, List.find?_cons_of_neg _ (by simpa using hx)]
      exact ih hnd'

/-- Claim C10: persisting the store to the durable file and reloading it
preserves the record found under every `(name, protocol)` key, but the
order `listConfigs` returns after the reload is the reverse of the order
it returned before (the file is written newest-first and reloading
re-inserts in file order). -/
theorem claim_C10_persist_reload (m : Store) (h : WellFormed m) :
    (∀ (name : String) (p : Protocol),
      getConfig (loadFromFile (fileContents m)) name p = getConfig m name p) ∧
    listConfigs (loadFromFile (fileContents m)) = (listConfigs m).reverse := by
  rw [loadFromFile_fileContents m h]
  constructor
  · intro name p
    rw [getConfig, getConfig]
    exact mapGet_reverse m _ h.1
  · simp [listConfigs, List.map_reverse, List.reverse_reverse]

/-- Witness for C10 on a concrete two-record store. -/
theorem claim_C10_witness :
    (getConfig
        (loadFromFile (fileContents
          [("a:hls", { name := "a", instanceUrl := "u", sourceUrl := "sa", protocol := .hls }),
           ("b:hls", { name := "b", instanceUrl := "u", sourceUrl := "sb", protocol := .hls })]))
        "a" Protocol.hls =
      getConfig
        [("a:hls", { name := "a", instanceUrl := "u", sourceUrl := "sa", protocol := .hls }),
         ("b:hls", { name := "b", instanceUrl := "u", sourceUrl := "sb", protocol := .hls })]
        "a" Protocol.hls) ∧
    listConfigs
        (loadFromFile (fileContents
          [("a:hls", { name := "a", instanceUrl := "u", sourceUrl := "sa", protocol := .hls }),
           ("b:hls", { name := "b", instanceUrl := "u", sourceUrl := "sb", protocol := .hls })])) =
      (listConfigs
        [("a:hls", { name := "a", instanceUrl := "u", sourceUrl := "sa", protocol := .hls }),
         ("b:hls", { name := "b", instanceUrl := "u", sourceUrl := "sb", protocol := .hls })]).reverse :=
  ⟨(claim_C10_persist_reload _ (by constructor <;> decide)).1 "a" Protocol.hls,
   (claim_C10_persist_reload _ (by constructor <;> decide)).2⟩

end ChaosMaker
